import Mathlib

/-!
Verification of the raster compositing pipeline and favicon resolution engine
of `src/lib/qr-utils.ts` (QR studio).

The embedding models an HTML canvas as a pixel buffer: a width, a height, a
total pixel function and an allocation identity (`id`, threaded explicitly to
model `document.createElement`).  Geometry drawn through the 2d context is
idealized: all coordinates are exact rationals, and a pixel shows a filled
shape exactly when the shape's region contains the pixel's center
`(i + 1/2, j + 1/2)` (antialiasing-free rasterization).  Asynchronous image
loading (`loadImage`, `loadFaviconImage`) is modelled by an explicit oracle
`env : String → Option _` giving, for each URI, the outcome of the race
between decode completion and the 5-second timer (`none` = decode error or
timeout).
-/

namespace QRStudio

/-- One RGBA pixel, 8 bits per channel (the `ImageData` byte layout, one
pixel's four consecutive bytes). -/
structure RGBA where
  r : ℕ
  g : ℕ
  b : ℕ
  a : ℕ
deriving DecidableEq

/-- An HTML canvas: dimensions, the pixel array (total function, row-major
`getImageData` view), and an allocation identity distinguishing distinct
`document.createElement('canvas')` results. -/
structure Canvas where
  width : ℕ
  height : ℕ
  pixels : ℕ → ℕ → RGBA
  id : ℕ

/-- The `QRDesignStyle` union type of `qr-types.ts`:
`square | rounded | dots | classy | classy-rounded | extra-rounded | diamond | star | fluid`. -/
inductive QRDesignStyle where
  | square
  | rounded
  | dots
  | classy
  | classyRounded
  | extraRounded
  | diamond
  | star
  | fluid
deriving DecidableEq

/-- The `LogoShape` union type: `square | rounded | circle`. -/
inductive LogoShape where
  | square
  | rounded
  | circle
deriving DecidableEq

/-- The `LogoLayout` union type:
`center | top-left | top-right | bottom-left | bottom-right | watermark`. -/
inductive LogoLayout where
  | center
  | topLeft
  | topRight
  | bottomLeft
  | bottomRight
  | watermark
deriving DecidableEq

/-- A `LogoItem` as far as the compositor reads it: `data` is the image URI
(`logo.data`). -/
structure LogoItem where
  id : String
  name : String
  data : String

/-- A filled shape put on the 2d context by one `beginPath …/fillRect` group.
Each constructor records the literal arguments of the corresponding draw
calls in `qr-utils.ts`:
* `rect x y w h` — `ctx.fillRect(x, y, w, h)`;
* `roundRect x y w h radius` — `ctx.roundRect(x, y, w, h, radius); ctx.fill()`;
* `circle cx cy radius` — `ctx.arc(cx, cy, radius, 0, 2π); ctx.fill()`;
* `path4 x1 y1 x2 y2 x3 y3 x4 y4` — `moveTo(x1,y1); lineTo(x2,y2); lineTo(x3,y3);
  lineTo(x4,y4); closePath(); fill()` (the diamond path);
* `star cx cy radius points` — `drawStar(ctx, cx, cy, radius, points)`. -/
inductive ShapeSpec where
  | rect (x y w h : ℚ)
  | roundRect (x y w h radius : ℚ)
  | circle (cx cy radius : ℚ)
  | path4 (x1 y1 x2 y2 x3 y3 x4 y4 : ℚ)
  | star (cx cy radius : ℚ) (points : ℕ)
deriving DecidableEq

/-- Region test for one rhombus of the filled 4-pointed star.  `drawStar`
with `points = 4` puts the outer vertices (distance `r`) on the two axes
through the center — angles `-90°, 0°, 90°, 180°` — and the inner vertices
(distance `r/2`) on the diagonals — angles `-45°, 45°, 135°, 225°`, i.e. at
`(±r·√2/4, ±r·√2/4)` relative to the center.  The filled polygon is the
union of two rhombi: one with long axis horizontal (vertices `(±r, 0)` and
the four inner vertices on its short sides), one with long axis vertical.
With `a`, `b` the distances of a point from the center along the long and
short axis, membership in one rhombus is `√2·a + (4-√2)·b ≤ √2·r`, i.e.
`4b ≤ √2·(r + b - a)`; squaring the (nonnegative) sides gives the
rational test below. -/
def starRhombusTest (r a b : ℚ) : Bool :=
  decide (a - b - r ≤ 0 ∧ (4 * b) ^ 2 ≤ 2 * (a - b - r) ^ 2)

/-- Points covered by a filled shape.  A canvas `fill()` paints the region
enclosed by the path: for `rect`/`roundRect`/`circle` the standard closed
region, for `path4` the filled quadrilateral (used only for the diamond,
whose vertices sit axis-aligned on the midlines, so the region is the
`ℓ¹`-ball `|u-cx|/hx + |v-cy|/hy ≤ 1` written multiplied out), and for
`star` the union of the two rhombi described at `starRhombusTest`. -/
def ShapeSpec.covers : ShapeSpec → ℚ → ℚ → Bool
  | .rect x y w h, u, v =>
      decide (x ≤ u ∧ u ≤ x + w ∧ y ≤ v ∧ v ≤ y + h)
  | .roundRect x y w h r, u, v =>
      decide (x ≤ u ∧ u ≤ x + w ∧ y ≤ v ∧ v ≤ y + h ∧
        (u < x + r ∧ v < y + r →
          (u - (x + r)) ^ 2 + (v - (y + r)) ^ 2 ≤ r ^ 2) ∧
        (x + w - r < u ∧ v < y + r →
          (u - (x + w - r)) ^ 2 + (v - (y + r)) ^ 2 ≤ r ^ 2) ∧
        (u < x + r ∧ y + h - r < v →
          (u - (x + r)) ^ 2 + (v - (y + h - r)) ^ 2 ≤ r ^ 2) ∧
        (x + w - r < u ∧ y + h - r < v →
          (u - (x + w - r)) ^ 2 + (v - (y + h - r)) ^ 2 ≤ r ^ 2))
  | .circle cx cy r, u, v =>
      decide ((u - cx) ^ 2 + (v - cy) ^ 2 ≤ r ^ 2)
  | .path4 x1 y1 x2 y2 x3 y3 x4 y4, u, v =>
      let cx := (x1 + x3) / 2
      let cy := (y1 + y3) / 2
      let hx := (x2 - x4) / 2
      let hy := (y3 - y1) / 2
      decide (hy * |u - cx| + hx * |v - cy| ≤ hx * hy)
  | .star cx cy r _, u, v =>
      starRhombusTest r |u - cx| |v - cy| || starRhombusTest r |v - cy| |u - cx|

/-- Geometric center of a drawn shape. -/
def ShapeSpec.specCenter : ShapeSpec → ℚ × ℚ
  | .rect x y w h => (x + w / 2, y + h / 2)
  | .roundRect x y w h _ => (x + w / 2, y + h / 2)
  | .circle cx cy _ => (cx, cy)
  | .path4 x1 y1 _ _ x3 y3 _ _ => ((x1 + x3) / 2, (y1 + y3) / 2)
  | .star cx cy _ _ => (cx, cy)

/-- The vertex list computed by `drawStar(ctx, cx, cy, radius, points)`, in
polar form about the center: entry `i` is `(rᵢ, θᵢ)` with
`rᵢ = radius` for even `i` and `radius * 0.5` for odd `i`, and
`θᵢ = i·π/points − π/2` radians recorded here in degrees
(`i·180/points − 90`). -/
def drawStarVertices (radius : ℚ) (points : ℕ) : List (ℚ × ℚ) :=
  (List.range (points * 2)).map (fun (i : ℕ) =>
    (if i % 2 = 0 then radius else radius * (1 / 2),
     ((i : ℚ) * 180) / (points : ℚ) - 90))

/-- Model of `drawStyledModule(ctx, x, y, size, style)`: the one shape drawn for a
dark module.  `padding = size * 0.1`, `actualSize = size - padding * 2`.
The `square` case is the `default` branch of the source's `switch`
(a plain full-cell square), unreachable from `applyDesignStyle`. -/
def drawStyledModule (x y size : ℚ) (style : QRDesignStyle) : ShapeSpec :=
  let padding := size * (1 / 10)
  let actualSize := size - padding * 2
  match style with
  | .rounded =>
      .roundRect (x + padding) (y + padding) actualSize actualSize (actualSize / 4)
  | .dots =>
      .circle (x + size / 2) (y + size / 2) (actualSize / (11 / 5))
  | .classy =>
      .rect (x + padding) (y + padding) actualSize actualSize
  | .classyRounded =>
      .roundRect (x + padding) (y + padding) actualSize actualSize (actualSize / 3)
  | .extraRounded =>
      .roundRect (x + padding) (y + padding) actualSize actualSize (actualSize / 2)
  | .diamond =>
      .path4 (x + size / 2) (y + padding) (x + size - padding) (y + size / 2)
        (x + size / 2) (y + size - padding) (x + padding) (y + size / 2)
  | .star =>
      .star (x + size / 2) (y + size / 2) (actualSize / 2) 4
  | .fluid =>
      .roundRect (x + padding) (y + padding) actualSize actualSize (actualSize / (5 / 2))
  | .square =>
      .rect x y size size

/-- Model of `Math.floor(canvas.width / 37)`: the module cell size estimate. -/
def moduleSizeOf (w : ℕ) : ℕ := w / 37

/-- The cell origins visited by `for (c = 0; c < bound; c += step)`: the
multiples of `step` below `bound` (for `step > 0`). -/
def cellStarts (bound step : ℕ) : List ℕ :=
  (List.range ((bound + step - 1) / step)).map (fun k => k * step)

/-- The module sampler's classification of cell `(x, y)`:
`imageData.data[(y * width + x) * 4] < 128` — the red channel of the single
pixel at the cell origin against the fixed mid threshold. -/
def sampleDark (c : Canvas) (x y : ℕ) : Bool :=
  decide ((c.pixels x y).r < 128)

/-- The dark cells of the sampling loop in `applyDesignStyle`. -/
def darkCells (c : Canvas) (m : ℕ) : List (ℕ × ℕ) :=
  ((cellStarts c.width m).product (cellStarts c.height m)).filter
    (fun cell => sampleDark c cell.1 cell.2)

/-- Model of `applyDesignStyle(canvas, style, fgColor, bgColor)`.  `square` returns
the input canvas itself.  Otherwise a new canvas (allocation id `freshId`)
of identical dimensions is filled with `bgColor` and one styled module is
drawn in `fgColor` for every dark cell.  When the module size estimate is
zero the source's pixel loop `for (y = 0; y < h; y += 0)` never terminates;
the model returns `none` for that case (there is no guard in the source).
The `getContext` failure branches are not modelled (a 2d context always
exists here). -/
def applyDesignStyle (c : Canvas) (style : QRDesignStyle) (fgColor bgColor : RGBA)
    (freshId : ℕ) : Option Canvas :=
  if style = .square then some c
  else
    let m := moduleSizeOf c.width
    if m = 0 then none
    else
      let dk := darkCells c m
      some
        { width := c.width
          height := c.height
          id := freshId
          pixels := fun i j =>
            if dk.any (fun cell =>
                (drawStyledModule (cell.1 : ℚ) (cell.2 : ℚ) (m : ℚ) style).covers
                  ((i : ℚ) + 1 / 2) ((j : ℚ) + 1 / 2))
            then fgColor else bgColor }

/-- Model of `canvas.width * (size / 100)`: the logo size in pixels from the size
percentage. -/
def logoSizePx (w sizePercent : ℚ) : ℚ := w * (sizePercent / 100)

/-- Model of `calculateLogoPosition(canvas, layout, logoSize)`; `margin =
canvas.width * 0.08`.  The source's `default` branch coincides with
`center`. -/
def calculateLogoPosition (w h : ℚ) (layout : LogoLayout) (logoSize : ℚ) : ℚ × ℚ :=
  let margin := w * (8 / 100)
  match layout with
  | .center => ((w - logoSize) / 2, (h - logoSize) / 2)
  | .bottomRight => (w - logoSize - margin, h - logoSize - margin)
  | .bottomLeft => (margin, h - logoSize - margin)
  | .topRight => (w - logoSize - margin, margin)
  | .topLeft => (margin, margin)
  | .watermark => ((w - logoSize) / 2, h - logoSize - margin * 2)

/-- A decoded logo image: its intrinsic size and the color `drawImage`
produces at a destination point when scaling it into the destination
rectangle (sampling abstracted). -/
structure LogoImage where
  width : ℕ
  height : ℕ
  sample : ℚ → ℚ → RGBA

/-- The background pad shape filled with `bgColor` before the logo is drawn:
extent `logoSize + 2·padding` around the anchor, matching the logo's shape
kind. -/
def padShape (shape : LogoShape) (px py logoSize padding : ℚ) : ShapeSpec :=
  match shape with
  | .circle => .circle (px + logoSize / 2) (py + logoSize / 2) (logoSize / 2 + padding)
  | .rounded => .roundRect (px - padding) (py - padding) (logoSize + padding * 2)
      (logoSize + padding * 2) (logoSize / 6)
  | .square => .rect (px - padding) (py - padding) (logoSize + padding * 2)
      (logoSize + padding * 2)

/-- The clip region inside which the logo image lands: `circle` clips to the
inscribed disk, `rounded` to the rounded rect of radius `logoSize/6`;
`square` has no clip call, so the image occupies exactly its `drawImage`
destination rectangle. -/
def clipShape (shape : LogoShape) (px py logoSize : ℚ) : ShapeSpec :=
  match shape with
  | .circle => .circle (px + logoSize / 2) (py + logoSize / 2) (logoSize / 2)
  | .rounded => .roundRect px py logoSize logoSize (logoSize / 6)
  | .square => .rect px py logoSize logoSize

/-- Model of `addLogoToCanvas(canvas, logo, options)` with options fields shape, layout, size, bgColor.
`loadEnv logo.data` is the outcome of `await loadImage(logo.data)` (`none`
= decode error or the 5-second timeout): then the function returns the
input canvas unchanged.  Otherwise it mutates the given canvas in place
(same allocation id): the pad shape is filled with `bgColor`, then the
image is drawn over it inside the clip region. -/
def addLogoToCanvas (c : Canvas) (logo : LogoItem)
    (shape : LogoShape) (layout : LogoLayout) (size : ℚ) (bgColor : RGBA)
    (loadEnv : String → Option LogoImage) : Canvas :=
  match loadEnv logo.data with
  | none => c
  | some img =>
    let logoSize := logoSizePx (c.width : ℚ) size
    let pos := calculateLogoPosition (c.width : ℚ) (c.height : ℚ) layout logoSize
    let padding := logoSize * (15 / 100)
    { c with
      pixels := fun i j =>
        let u := (i : ℚ) + 1 / 2
        let v := (j : ℚ) + 1 / 2
        if (clipShape shape pos.1 pos.2 logoSize).covers u v then img.sample u v
        else if (padShape shape pos.1 pos.2 logoSize padding).covers u v then bgColor
        else c.pixels i j }

/-- Model of `addBorderToCanvas(canvas, borderWidth, borderColor)`: a new canvas of
size `(w + 2b) × (h + 2b)` (allocation id `freshId`), filled with the
border color, with the original canvas drawn at offset `(b, b)`. -/
def addBorderToCanvas (c : Canvas) (borderWidth : ℕ) (borderColor : RGBA)
    (freshId : ℕ) : Canvas :=
  { width := c.width + borderWidth * 2
    height := c.height + borderWidth * 2
    id := freshId
    pixels := fun i j =>
      if borderWidth ≤ i ∧ i < borderWidth + c.width ∧
         borderWidth ≤ j ∧ j < borderWidth + c.height
      then c.pixels (i - borderWidth) (j - borderWidth)
      else borderColor }

/-- A decoded favicon candidate image (only its intrinsic dimensions matter
to the resolution engine). -/
structure FaviconImage where
  width : ℕ
  height : ℕ
deriving DecidableEq

/-- The normalized favicon produced by `loadFaviconImage` on acceptance: a
`size × size` canvas (size 256) filled with `background` white, with the
source image drawn at `(drawX, drawY)` scaled to `drawW × drawH`. -/
structure NormalizedFavicon where
  size : ℕ
  background : RGBA
  drawX : ℚ
  drawY : ℚ
  drawW : ℚ
  drawH : ℚ
deriving DecidableEq

/-- Model of `loadFaviconImage(src)` given the load outcome `res` of `new Image()`
with `src` (`none` = `onerror` or the 5-second timeout, which resolve
`null`).  Images with width or height below 16px are skipped (resolve
`null`); an accepted image is drawn centered onto a white 256×256 canvas,
uniformly scaled by `min(256/w, 256/h)`. -/
def loadFaviconImage (res : Option FaviconImage) : Option NormalizedFavicon :=
  match res with
  | none => none
  | some img =>
    if img.width < 16 ∨ img.height < 16 then none
    else
      let scale := min ((256 : ℚ) / img.width) ((256 : ℚ) / img.height)
      let w := (img.width : ℚ) * scale
      let h := (img.height : ℚ) * scale
      some
        { size := 256
          background := ⟨255, 255, 255, 255⟩
          drawX := (256 - w) / 2
          drawY := (256 - h) / 2
          drawW := w
          drawH := h }

/-- URL normalization at the head of `fetchFavicon`: trim, then prepend
`https://` unless the string already starts with `http://` or `https://`. -/
def normalizeUrl (url : String) : String :=
  let t := url.trim
  if t.startsWith ("http://") ∨ t.startsWith ("https://") then t
  else "https://" ++ t

/-- Modelled platform behavior: `new URL(u).hostname` for URLs of the shape
`scheme://host[:port][/path][?query][#fragment]` (no userinfo): the text
after the scheme up to the first `/`, `:`, `?` or `#`. -/
def hostnameOf (u : String) : String :=
  let rest :=
    if u.startsWith ("https://") then u.drop 8
    else if u.startsWith ("http://") then u.drop 7
    else u
  rest.takeWhile (fun ch => !(ch == '/' || ch == ':' || ch == '?' || ch == '#'))

/-- Modelled platform behavior: `new URL(u).origin` for the same URL shapes
(scheme and host; default ports elided). -/
def originOf (u : String) : String :=
  if u.startsWith ("http://") then "http://" ++ hostnameOf u
  else "https://" ++ hostnameOf u

/-- The fixed, ordered favicon candidate list of `fetchFavicon`: four
third-party icon APIs first, then the domain's well-known direct paths. -/
def faviconSources (domain origin : String) : List String :=
  ["https://www.google.com/s2/favicons?domain=" ++ domain ++ "&sz=256",
   "https://icons.duckduckgo.com/ip3/" ++ domain ++ ".ico",
   "https://logo.clearbit.com/" ++ domain,
   "https://api.faviconkit.com/" ++ domain ++ "/256",
   origin ++ "/apple-touch-icon.png",
   origin ++ "/apple-touch-icon-precomposed.png",
   origin ++ "/favicon-32x32.png",
   origin ++ "/favicon.ico"]

/-- The `for (const src of sources)` loop of `fetchFavicon`: candidates are
probed strictly in order; the first accepted normalization wins.  Returns
the probed prefix (the trace of `loadFaviconImage` invocations) together
with the result.  `env src` is the load outcome for candidate `src`. -/
def probeSources (env : String → Option FaviconImage) :
    List String → List String × Option NormalizedFavicon
  | [] => ([], none)
  | src :: rest =>
    match loadFaviconImage (env src) with
    | some n => ([src], some n)
    | none =>
      let r := probeSources env rest
      (src :: r.1, r.2)

/-- Model of `fetchFavicon(url)` under load oracle `env`: normalize the URL, build
the candidate list from the extracted domain and origin, probe sequentially,
and return the first accepted normalized icon, or `none` when every
candidate is exhausted.  The source's top-level `try/catch` also resolves
to `null`; the modelled URL parser is total, so only the exhaustion path
produces `none` here. -/
def fetchFavicon (env : String → Option FaviconImage) (url : String) :
    Option NormalizedFavicon :=
  let nu := normalizeUrl url
  (probeSources env (faviconSources (hostnameOf nu) (originOf nu))).2

/-- The trace of candidate URLs `fetchFavicon` actually probes, in order. -/
def fetchFaviconTrace (env : String → Option FaviconImage) (url : String) :
    List String :=
  let nu := normalizeUrl url
  (probeSources env (faviconSources (hostnameOf nu) (originOf nu))).1

/-- A concrete 400×400 canvas (black and white checker at the sampling
grid) used by the witnesses. -/
def testCanvas : Canvas :=
  { width := 400
    height := 400
    pixels := fun i j => if (i / 10 + j / 10) % 2 = 0 then ⟨0, 0, 0, 255⟩ else ⟨255, 255, 255, 255⟩
    id := 0 }

/-- A concrete all-dark 36×36 canvas: its width is below the fixed reference
grid dimension 37, so the module size estimate is zero. -/
def smallCanvas : Canvas :=
  { width := 36
    height := 36
    pixels := fun _ _ => ⟨0, 0, 0, 255⟩
    id := 0 }

/-- The background pad region `addLogoToCanvas` fills for a given buffer,
logo shape, layout and size percentage: the pad shape at the computed
anchor, of extent `logoSize + 2·(0.15·logoSize)`. -/
def logoPadRegion (c : Canvas) (shape : LogoShape) (layout : LogoLayout) (size : ℚ) :
    ShapeSpec :=
  padShape shape
    (calculateLogoPosition (c.width : ℚ) (c.height : ℚ) layout
      (logoSizePx (c.width : ℚ) size)).1
    (calculateLogoPosition (c.width : ℚ) (c.height : ℚ) layout
      (logoSizePx (c.width : ℚ) size)).2
    (logoSizePx (c.width : ℚ) size)
    (logoSizePx (c.width : ℚ) size * (15 / 100))

/-- A concrete 256×256 all-black decoded logo image, for witnesses. -/
def constImage : LogoImage :=
  { width := 256
    height := 256
    sample := fun _ _ => ⟨0, 0, 0, 255⟩ }

/-- A load oracle on which every image URI decodes to `constImage`. -/
def constLoadEnv : String → Option LogoImage := fun _ => some constImage

/-- Counting fact for the pixel loop: iteration `k` exists exactly when
`k * m` is still below the bound. -/
theorem lt_ceilDiv_iff {k b m : ℕ} (hm : 0 < m) :
    k < (b + m - 1) / m ↔ k * m < b := by
  constructor
  · intro h
    have h2 : (k + 1) * m ≤ b + m - 1 := (Nat.le_div_iff_mul_le hm).mp h
    have e : (k + 1) * m = k * m + m := by ring
    omega
  · intro h
    have e : (k + 1) * m = k * m + m := by ring
    have h2 : (k + 1) * m ≤ b + m - 1 := by omega
    exact (Nat.le_div_iff_mul_le hm).mpr h2

/-- Membership in the visited cell origins: the multiples of the step below
the bound. -/
theorem mem_cellStarts {b m x : ℕ} (hm : 0 < m) :
    x ∈ cellStarts b m ↔ (∃ k, x = k * m) ∧ x < b := by
  unfold cellStarts
  simp only [List.mem_map, List.mem_range]
  constructor
  · rintro ⟨k, hk, rfl⟩
    exact ⟨⟨k, rfl⟩, (lt_ceilDiv_iff hm).mp hk⟩
  · rintro ⟨⟨k, rfl⟩, hx⟩
    exact ⟨k, (lt_ceilDiv_iff hm).mpr hx, rfl⟩

/-- The origin of the cell containing pixel column `i` is visited. -/
theorem ownCell_mem_cellStarts {b m i : ℕ} (hm : 0 < m) (hi : i < b) :
    i / m * m ∈ cellStarts b m := by
  refine (mem_cellStarts hm).mpr ⟨⟨i / m, rfl⟩, ?_⟩
  exact lt_of_le_of_lt (Nat.div_mul_le_self i m) hi

/-- Membership in the dark cell list. -/
theorem mem_darkCells {c : Canvas} {m x y : ℕ} :
    (x, y) ∈ darkCells c m ↔
      x ∈ cellStarts c.width m ∧ y ∈ cellStarts c.height m ∧
        sampleDark c x y = true := by
  unfold darkCells
  rw [List.mem_filter, List.pair_mem_product]
  tauto

/-- Bounds of a filled plain rectangle. -/
theorem rect_covers_bounds {x y w h u v : ℚ}
    (hc : (ShapeSpec.rect x y w h).covers u v = true) :
    x ≤ u ∧ u ≤ x + w ∧ y ≤ v ∧ v ≤ y + h := by
  simpa [ShapeSpec.covers] using hc

/-- Bounds of a filled rounded rectangle (its bounding box). -/
theorem roundRect_covers_bounds {x y w h r u v : ℚ}
    (hc : (ShapeSpec.roundRect x y w h r).covers u v = true) :
    x ≤ u ∧ u ≤ x + w ∧ y ≤ v ∧ v ≤ y + h := by
  simp only [ShapeSpec.covers, decide_eq_true_eq] at hc
  exact ⟨hc.1, hc.2.1, hc.2.2.1, hc.2.2.2.1⟩

/-- Bounds of a filled disk. -/
theorem circle_covers_bounds {cx cy r u v : ℚ} (hr : 0 ≤ r)
    (hc : (ShapeSpec.circle cx cy r).covers u v = true) :
    cx - r ≤ u ∧ u ≤ cx + r ∧ cy - r ≤ v ∧ v ≤ cy + r := by
  simp only [ShapeSpec.covers, decide_eq_true_eq] at hc
  refine ⟨?_, ?_, ?_, ?_⟩
  · nlinarith [sq_nonneg (v - cy), sq_nonneg (u - cx + r)]
  · nlinarith [sq_nonneg (v - cy), sq_nonneg (u - cx - r)]
  · nlinarith [sq_nonneg (u - cx), sq_nonneg (v - cy + r)]
  · nlinarith [sq_nonneg (u - cx), sq_nonneg (v - cy - r)]

/-- Bounds of the filled diamond path (distance from its center along each
axis at most the corresponding half-diagonal). -/
theorem path4_covers_bounds {x1 y1 x2 y2 x3 y3 x4 y4 u v : ℚ}
    (hhx : 0 < (x2 - x4) / 2) (hhy : 0 < (y3 - y1) / 2)
    (hc : (ShapeSpec.path4 x1 y1 x2 y2 x3 y3 x4 y4).covers u v = true) :
    |u - (x1 + x3) / 2| ≤ (x2 - x4) / 2 ∧ |v - (y1 + y3) / 2| ≤ (y3 - y1) / 2 := by
  simp only [ShapeSpec.covers, decide_eq_true_eq] at hc
  have h1 : 0 ≤ |u - (x1 + x3) / 2| := abs_nonneg _
  have h2 : 0 ≤ |v - (y1 + y3) / 2| := abs_nonneg _
  constructor <;> nlinarith

/-- From the rational rhombus test, both center distances are at most the
outer radius. -/
theorem starRhombusTest_bounds {r a b : ℚ} (ha : 0 ≤ a) (hb : 0 ≤ b) (hr : 0 < r)
    (h : starRhombusTest r a b = true) : a ≤ r ∧ b ≤ r := by
  simp only [starRhombusTest, decide_eq_true_eq] at h
  obtain ⟨h1, h2⟩ := h
  have hbr : b ≤ r := by
    nlinarith [sq_nonneg (a - b - r), sq_nonneg (b - r), mul_pos hr hr,
      mul_nonneg ha hb, mul_nonneg ha hr.le]
  refine ⟨?_, hbr⟩
  by_cases hle : a ≤ r
  · exact hle
  · push_neg at hle
    have h3 : (a - b - r) ^ 2 ≤ b ^ 2 := by nlinarith
    have hb0 : b = 0 := by nlinarith
    nlinarith

/-- Bounds of the filled star (its bounding box: the outer radius). -/
theorem star_covers_bounds {cx cy r u v : ℚ} {pts : ℕ} (hr : 0 < r)
    (hc : (ShapeSpec.star cx cy r pts).covers u v = true) :
    cx - r ≤ u ∧ u ≤ cx + r ∧ cy - r ≤ v ∧ v ≤ cy + r := by
  simp only [ShapeSpec.covers, Bool.or_eq_true] at hc
  have ha : 0 ≤ |u - cx| := abs_nonneg _
  have hb : 0 ≤ |v - cy| := abs_nonneg _
  have habs : |u - cx| ≤ r ∧ |v - cy| ≤ r := by
    rcases hc with hc | hc
    · exact (starRhombusTest_bounds ha hb hr hc).symm.imp id id |>.symm
    · have := starRhombusTest_bounds hb ha hr hc
      exact ⟨this.2, this.1⟩
  obtain ⟨hu, hv⟩ := habs
  rw [abs_le] at hu hv
  constructor
  · linarith [hu.1]
  refine ⟨by linarith [hu.2], by linarith [hv.1], by linarith [hv.2]⟩

/-- Containment: for every non-square style, the module shape drawn for the
cell with origin `(x, y)` and size `m` stays inside the inset
`[x + m/10, x + m - m/10] × [y + m/10, y + m - m/10]` of the cell. -/
theorem covers_subset_cell {style : QRDesignStyle} (hst : style ≠ .square)
    {x y m u v : ℚ} (hm : 0 < m)
    (h : (drawStyledModule x y m style).covers u v = true) :
    x + m / 10 ≤ u ∧ u ≤ x + m - m / 10 ∧ y + m / 10 ≤ v ∧ v ≤ y + m - m / 10 := by
  cases style with
  | square => exact absurd rfl hst
  | rounded =>
    simp only [drawStyledModule] at h
    obtain ⟨h1, h2, h3, h4⟩ := roundRect_covers_bounds h
    exact ⟨by linarith, by linarith, by linarith, by linarith⟩
  | classyRounded =>
    simp only [drawStyledModule] at h
    obtain ⟨h1, h2, h3, h4⟩ := roundRect_covers_bounds h
    exact ⟨by linarith, by linarith, by linarith, by linarith⟩
  | extraRounded =>
    simp only [drawStyledModule] at h
    obtain ⟨h1, h2, h3, h4⟩ := roundRect_covers_bounds h
    exact ⟨by linarith, by linarith, by linarith, by linarith⟩
  | fluid =>
    simp only [drawStyledModule] at h
    obtain ⟨h1, h2, h3, h4⟩ := roundRect_covers_bounds h
    exact ⟨by linarith, by linarith, by linarith, by linarith⟩
  | classy =>
    simp only [drawStyledModule] at h
    obtain ⟨h1, h2, h3, h4⟩ := rect_covers_bounds h
    exact ⟨by linarith, by linarith, by linarith, by linarith⟩
  | dots =>
    simp only [drawStyledModule] at h
    have hr : (0 : ℚ) ≤ (m - m * (1 / 10) * 2) / (11 / 5) := by linarith
    obtain ⟨h1, h2, h3, h4⟩ := circle_covers_bounds hr h
    exact ⟨by linarith, by linarith, by linarith, by linarith⟩
  | diamond =>
    simp only [drawStyledModule] at h
    have hhx : (0 : ℚ) < ((x + m - m * (1 / 10)) - (x + m * (1 / 10))) / 2 := by linarith
    have hhy : (0 : ℚ) < ((y + m - m * (1 / 10)) - (y + m * (1 / 10))) / 2 := by linarith
    obtain ⟨hu, hv⟩ := path4_covers_bounds hhx hhy h
    rw [abs_le] at hu hv
    obtain ⟨hu1, hu2⟩ := hu
    obtain ⟨hv1, hv2⟩ := hv
    exact ⟨by linarith, by linarith, by linarith, by linarith⟩
  | star =>
    simp only [drawStyledModule] at h
    have hr : (0 : ℚ) < (m - m * (1 / 10) * 2) / 2 := by linarith
    obtain ⟨h1, h2, h3, h4⟩ := star_covers_bounds hr h
    exact ⟨by linarith, by linarith, by linarith, by linarith⟩

/-- For every non-square style, the module shape is centered in its cell:
its geometric center is the cell center. -/
theorem drawStyledModule_center {style : QRDesignStyle} (hst : style ≠ .square)
    (x y m : ℚ) :
    (drawStyledModule x y m style).specCenter = (x + m / 2, y + m / 2) := by
  cases style with
  | square => exact absurd rfl hst
  | rounded => simp only [drawStyledModule, ShapeSpec.specCenter, Prod.mk.injEq]; constructor <;> ring
  | dots => simp [drawStyledModule, ShapeSpec.specCenter]
  | classy => simp only [drawStyledModule, ShapeSpec.specCenter, Prod.mk.injEq]; constructor <;> ring
  | classyRounded => simp only [drawStyledModule, ShapeSpec.specCenter, Prod.mk.injEq]; constructor <;> ring
  | extraRounded => simp only [drawStyledModule, ShapeSpec.specCenter, Prod.mk.injEq]; constructor <;> ring
  | diamond => simp only [drawStyledModule, ShapeSpec.specCenter, Prod.mk.injEq]; constructor <;> ring
  | star => simp [drawStyledModule, ShapeSpec.specCenter]
  | fluid => simp only [drawStyledModule, ShapeSpec.specCenter, Prod.mk.injEq]; constructor <;> ring

/-- For every non-square style, the module shape is nonempty: it covers the
cell center. -/
theorem drawStyledModule_covers_center {style : QRDesignStyle} (hst : style ≠ .square)
    (x y m : ℚ) (hm : 0 < m) :
    (drawStyledModule x y m style).covers (x + m / 2) (y + m / 2) = true := by
  cases style with
  | square => exact absurd rfl hst
  | rounded =>
    simp only [drawStyledModule, ShapeSpec.covers, decide_eq_true_eq]
    refine ⟨by linarith, by linarith, by linarith, by linarith, ?_, ?_, ?_, ?_⟩ <;>
      exact fun hcon => absurd hcon.1 (not_lt.mpr (by linarith))
  | classyRounded =>
    simp only [drawStyledModule, ShapeSpec.covers, decide_eq_true_eq]
    refine ⟨by linarith, by linarith, by linarith, by linarith, ?_, ?_, ?_, ?_⟩ <;>
      exact fun hcon => absurd hcon.1 (not_lt.mpr (by linarith))
  | extraRounded =>
    simp only [drawStyledModule, ShapeSpec.covers, decide_eq_true_eq]
    refine ⟨by linarith, by linarith, by linarith, by linarith, ?_, ?_, ?_, ?_⟩ <;>
      exact fun hcon => absurd hcon.1 (not_lt.mpr (by linarith))
  | fluid =>
    simp only [drawStyledModule, ShapeSpec.covers, decide_eq_true_eq]
    refine ⟨by linarith, by linarith, by linarith, by linarith, ?_, ?_, ?_, ?_⟩ <;>
      exact fun hcon => absurd hcon.1 (not_lt.mpr (by linarith))
  | classy =>
    simp only [drawStyledModule, ShapeSpec.covers, decide_eq_true_eq]
    exact ⟨by linarith, by linarith, by linarith, by linarith⟩
  | dots =>
    simp only [drawStyledModule, ShapeSpec.covers, decide_eq_true_eq]
    nlinarith [sq_nonneg ((m - m * (1 / 10) * 2) / (11 / 5))]
  | diamond =>
    simp only [drawStyledModule, ShapeSpec.covers, decide_eq_true_eq]
    have e1 : x + m / 2 - (x + m / 2 + (x + m / 2)) / 2 = 0 := by ring
    have e2 : y + m / 2 - (y + m * (1 / 10) + (y + m - m * (1 / 10))) / 2 = 0 := by ring
    rw [e1, e2, abs_zero]
    nlinarith
  | star =>
    simp only [drawStyledModule, ShapeSpec.covers, starRhombusTest, Bool.or_eq_true,
      decide_eq_true_eq]
    left
    have e1 : x + m / 2 - (x + m / 2) = 0 := by ring
    have e2 : y + m / 2 - (y + m / 2) = 0 := by ring
    rw [e1, e2, abs_zero]
    constructor <;> nlinarith

/-- The only dark-cell shape that can cover the center of pixel `(i, j)` is
the one of the cell containing the pixel: the styled-module test over the
dark cell list reduces to the pixel's own cell being dark and its shape
covering the pixel center. -/
theorem any_darkCells_iff {c : Canvas} {m : ℕ} (hm : 0 < m) {style : QRDesignStyle}
    (hst : style ≠ .square) {i j : ℕ} (hi : i < c.width) (hj : j < c.height) :
    ((darkCells c m).any (fun cell =>
        (drawStyledModule (cell.1 : ℚ) (cell.2 : ℚ) (m : ℚ) style).covers
          ((i : ℚ) + 1 / 2) ((j : ℚ) + 1 / 2)) = true) ↔
      (sampleDark c (i / m * m) (j / m * m) = true ∧
        (drawStyledModule ((i / m * m : ℕ) : ℚ) ((j / m * m : ℕ) : ℚ) (m : ℚ) style).covers
          ((i : ℚ) + 1 / 2) ((j : ℚ) + 1 / 2) = true) := by
  rw [List.any_eq_true]
  constructor
  · rintro ⟨⟨x0, y0⟩, hmem, hcov⟩
    obtain ⟨hx0, hy0, hdark⟩ := mem_darkCells.mp hmem
    obtain ⟨⟨kx, rfl⟩, hxw⟩ := (mem_cellStarts hm).mp hx0
    obtain ⟨⟨ky, rfl⟩, hyh⟩ := (mem_cellStarts hm).mp hy0
    have hmq : (0 : ℚ) < (m : ℚ) := by exact_mod_cast hm
    obtain ⟨hb1, hb2, hb3, hb4⟩ := covers_subset_cell hst hmq hcov
    have hxle : kx * m ≤ i := by
      by_contra hlt
      push_neg at hlt
      have hcast : ((i : ℚ) + 1 ≤ ((kx * m : ℕ) : ℚ)) := by exact_mod_cast hlt
      linarith
    have hxlt : i < (kx + 1) * m := by
      have hcast : ((i : ℚ) + 1 / 2 ≤ ((kx * m : ℕ) : ℚ) + (m : ℚ) - (m : ℚ) / 10) := hb2
      have : ((i : ℚ) < ((kx * m + m : ℕ) : ℚ)) := by push_cast; push_cast at hcast; linarith
      have hn : i < kx * m + m := by exact_mod_cast this
      have he : (kx + 1) * m = kx * m + m := by ring
      omega
    have hyle : ky * m ≤ j := by
      by_contra hlt
      push_neg at hlt
      have hcast : ((j : ℚ) + 1 ≤ ((ky * m : ℕ) : ℚ)) := by exact_mod_cast hlt
      linarith
    have hylt : j < (ky + 1) * m := by
      have hcast : ((j : ℚ) + 1 / 2 ≤ ((ky * m : ℕ) : ℚ) + (m : ℚ) - (m : ℚ) / 10) := hb4
      have : ((j : ℚ) < ((ky * m + m : ℕ) : ℚ)) := by push_cast; push_cast at hcast; linarith
      have hn : j < ky * m + m := by exact_mod_cast this
      have he : (ky + 1) * m = ky * m + m := by ring
      omega
    have hdx : i / m = kx := Nat.div_eq_of_lt_le hxle hxlt
    have hdy : j / m = ky := Nat.div_eq_of_lt_le hyle hylt
    rw [hdx, hdy]
    exact ⟨hdark, hcov⟩
  · rintro ⟨hdark, hcov⟩
    refine ⟨(i / m * m, j / m * m), ?_, hcov⟩
    exact mem_darkCells.mpr
      ⟨ownCell_mem_cellStarts hm hi, ownCell_mem_cellStarts hm hj, hdark⟩

/-- C1: for every input buffer and every non-square style (with a nonzero
cell size estimate `m = ⌊width/37⌋`, the condition under which the sampling
loop terminates), `applyDesignStyle` returns a new buffer of identical
dimensions in which (i) every pixel of a cell whose sampled pixel — read at
the cell origin, stepped by the cell size estimate — has red channel ≥ 128
shows only the background color, (ii) every pixel of a cell whose sampled
pixel has red channel < 128 shows exactly the one module shape of that cell
(foreground inside the shape, background outside), (iii) that shape is
centered in the cell and nonempty, and (iv) for cell size ≥ 10px the shape
is fully contained within its cell's bounds, so it cannot bleed into
neighboring cells. -/
theorem applyDesignStyle_nonsquare_spec (c : Canvas) (style : QRDesignStyle)
    (fg bg : RGBA) (fid m : ℕ) (hmdef : m = moduleSizeOf c.width)
    (hst : style ≠ .square) (hm : 0 < m) :
    ∃ o, applyDesignStyle c style fg bg fid = some o ∧
      o.width = c.width ∧ o.height = c.height ∧
      (∀ i j : ℕ, i < c.width → j < c.height →
        (128 ≤ (c.pixels (i / m * m) (j / m * m)).r → o.pixels i j = bg) ∧
        ((c.pixels (i / m * m) (j / m * m)).r < 128 →
          o.pixels i j =
            if (drawStyledModule ((i / m * m : ℕ) : ℚ) ((j / m * m : ℕ) : ℚ) (m : ℚ)
                  style).covers ((i : ℚ) + 1 / 2) ((j : ℚ) + 1 / 2)
            then fg else bg)) ∧
      (∀ x y : ℚ,
        (drawStyledModule x y (m : ℚ) style).specCenter =
            (x + (m : ℚ) / 2, y + (m : ℚ) / 2) ∧
        (drawStyledModule x y (m : ℚ) style).covers (x + (m : ℚ) / 2) (y + (m : ℚ) / 2)
            = true) ∧
      (10 ≤ m → ∀ x y u v : ℚ,
        (drawStyledModule x y (m : ℚ) style).covers u v = true →
          x ≤ u ∧ u ≤ x + (m : ℚ) ∧ y ≤ v ∧ v ≤ y + (m : ℚ)) := by
  subst hmdef
  have hm0 : moduleSizeOf c.width ≠ 0 := Nat.pos_iff_ne_zero.mp hm
  have hmq : (0 : ℚ) < (moduleSizeOf c.width : ℚ) := by exact_mod_cast hm
  refine ⟨{ width := c.width
            height := c.height
            id := fid
            pixels := fun i j =>
              if (darkCells c (moduleSizeOf c.width)).any (fun cell =>
                  (drawStyledModule (cell.1 : ℚ) (cell.2 : ℚ) ((moduleSizeOf c.width : ℕ) : ℚ)
                    style).covers ((i : ℚ) + 1 / 2) ((j : ℚ) + 1 / 2))
              then fg else bg }, ?_, rfl, rfl, ?_, ?_, ?_⟩
  · simp only [applyDesignStyle, hst, if_false, hm0, ite_false]
  · intro i j hi hj
    constructor
    · intro hlight
      have hnot : ¬ ((darkCells c (moduleSizeOf c.width)).any (fun cell =>
          (drawStyledModule (cell.1 : ℚ) (cell.2 : ℚ) (moduleSizeOf c.width : ℚ)
            style).covers ((i : ℚ) + 1 / 2) ((j : ℚ) + 1 / 2)) = true) := by
        intro hany
        have := ((any_darkCells_iff hm hst hi hj).mp hany).1
        simp only [sampleDark, decide_eq_true_eq] at this
        omega
      simp only [Bool.not_eq_true] at hnot
      simp only [hnot, Bool.false_eq_true, if_false]
    · intro hdark
      by_cases hcov : (drawStyledModule ((i / moduleSizeOf c.width * moduleSizeOf c.width : ℕ) : ℚ)
          ((j / moduleSizeOf c.width * moduleSizeOf c.width : ℕ) : ℚ) (moduleSizeOf c.width : ℚ)
          style).covers ((i : ℚ) + 1 / 2) ((j : ℚ) + 1 / 2) = true
      · have hany := (any_darkCells_iff hm hst hi hj).mpr
          ⟨by simp only [sampleDark, decide_eq_true_eq]; exact hdark, hcov⟩
        simp only [hany, if_true, hcov]
      · have hnot : ¬ ((darkCells c (moduleSizeOf c.width)).any (fun cell =>
            (drawStyledModule (cell.1 : ℚ) (cell.2 : ℚ) (moduleSizeOf c.width : ℚ)
              style).covers ((i : ℚ) + 1 / 2) ((j : ℚ) + 1 / 2)) = true) := by
          intro hany
          exact hcov ((any_darkCells_iff hm hst hi hj).mp hany).2
        simp only [Bool.not_eq_true] at hnot
        simp only [hnot, Bool.false_eq_true, if_false]
        rw [if_neg (by simpa using hcov)]
  · intro x y
    exact ⟨drawStyledModule_center hst x y (moduleSizeOf c.width),
      drawStyledModule_covers_center hst x y (moduleSizeOf c.width) hmq⟩
  · intro _ x y u v hc
    obtain ⟨h1, h2, h3, h4⟩ := covers_subset_cell hst hmq hc
    exact ⟨by linarith, by linarith, by linarith, by linarith⟩

/-- Witness for C1 at a concrete input: the 400×400 test canvas with the
`dots` style (module size estimate `⌊400/37⌋ = 10`). -/
theorem applyDesignStyle_nonsquare_spec_witness :
    ∃ o, applyDesignStyle testCanvas QRDesignStyle.dots ⟨0, 0, 0, 255⟩ ⟨255, 255, 255, 255⟩ 1
        = some o ∧ o.width = 400 ∧ o.height = 400 := by
  obtain ⟨o, h1, h2, h3, -⟩ :=
    applyDesignStyle_nonsquare_spec testCanvas QRDesignStyle.dots
      ⟨0, 0, 0, 255⟩ ⟨255, 255, 255, 255⟩ 1 10 (by decide) (by decide) (by decide)
  exact ⟨o, h1, h2, h3⟩

/-- C2: for every cell at `(x, y)` of size `s`, with inset padding
`p = 0.1·s` and drawable extent `d = s - 2p`, the shape drawn for each
style has exactly the claimed dimensions: `rounded` a rounded square of
extent `d` with corner radius `d/4`; `dots` a filled circle of radius
`d/2.2` centered in the cell; `classy` a plain filled square of extent `d`;
`classy-rounded` corner radius `d/3`; `extra-rounded` corner radius `d/2`;
`fluid` corner radius `d/2.5`; `diamond` the four-point polygon through the
midpoints of the four inset edges; `star` a 4-pointed star of outer radius
`d/2` whose polar vertex list alternates outer radius and half the outer
radius, starting at angle −90° and stepping 45°. -/
theorem drawStyledModule_shape_catalogue (x y s : ℚ) :
    drawStyledModule x y s .rounded =
        .roundRect (x + 0.1 * s) (y + 0.1 * s) (s - 2 * (0.1 * s)) (s - 2 * (0.1 * s))
          ((s - 2 * (0.1 * s)) / 4) ∧
    drawStyledModule x y s .dots =
        .circle (x + s / 2) (y + s / 2) ((s - 2 * (0.1 * s)) / 2.2) ∧
    drawStyledModule x y s .classy =
        .rect (x + 0.1 * s) (y + 0.1 * s) (s - 2 * (0.1 * s)) (s - 2 * (0.1 * s)) ∧
    drawStyledModule x y s .classyRounded =
        .roundRect (x + 0.1 * s) (y + 0.1 * s) (s - 2 * (0.1 * s)) (s - 2 * (0.1 * s))
          ((s - 2 * (0.1 * s)) / 3) ∧
    drawStyledModule x y s .extraRounded =
        .roundRect (x + 0.1 * s) (y + 0.1 * s) (s - 2 * (0.1 * s)) (s - 2 * (0.1 * s))
          ((s - 2 * (0.1 * s)) / 2) ∧
    drawStyledModule x y s .fluid =
        .roundRect (x + 0.1 * s) (y + 0.1 * s) (s - 2 * (0.1 * s)) (s - 2 * (0.1 * s))
          ((s - 2 * (0.1 * s)) / 2.5) ∧
    drawStyledModule x y s .diamond =
        .path4 (x + 0.1 * s + (s - 2 * (0.1 * s)) / 2) (y + 0.1 * s)
          (x + 0.1 * s + (s - 2 * (0.1 * s))) (y + 0.1 * s + (s - 2 * (0.1 * s)) / 2)
          (x + 0.1 * s + (s - 2 * (0.1 * s)) / 2) (y + 0.1 * s + (s - 2 * (0.1 * s)))
          (x + 0.1 * s) (y + 0.1 * s + (s - 2 * (0.1 * s)) / 2) ∧
    drawStyledModule x y s .star =
        .star (x + s / 2) (y + s / 2) ((s - 2 * (0.1 * s)) / 2) 4 ∧
    drawStarVertices ((s - 2 * (0.1 * s)) / 2) 4 =
        [((s - 2 * (0.1 * s)) / 2, -90), ((s - 2 * (0.1 * s)) / 2 * (1 / 2), -45),
         ((s - 2 * (0.1 * s)) / 2, 0), ((s - 2 * (0.1 * s)) / 2 * (1 / 2), 45),
         ((s - 2 * (0.1 * s)) / 2, 90), ((s - 2 * (0.1 * s)) / 2 * (1 / 2), 135),
         ((s - 2 * (0.1 * s)) / 2, 180), ((s - 2 * (0.1 * s)) / 2 * (1 / 2), 225)] := by
  refine ⟨?_, ?_, ?_, ?_, ?_, ?_, ?_, ?_, ?_⟩ <;>
    simp only [drawStyledModule, drawStarVertices, ShapeSpec.roundRect.injEq,
      ShapeSpec.circle.injEq, ShapeSpec.rect.injEq, ShapeSpec.path4.injEq,
      ShapeSpec.star.injEq, Prod.mk.injEq] <;>
    norm_num [List.range_succ] <;> and_intros <;> ring

/-- C3: `applyDesignStyle` with style `square` returns the input buffer
itself, for every buffer and every color choice. -/
theorem applyDesignStyle_square_identity (c : Canvas) (fg bg : RGBA) (fid : ℕ) :
    applyDesignStyle c .square fg bg fid = some c := rfl

/-- C4: the logo anchor for every layout, with margin `0.08·w`; `watermark`
is horizontally centered and offset from the bottom edge by twice the
margin plus the logo height; and the concrete instances for a 400×400
buffer with `sizePercent = 15`. -/
theorem calculateLogoPosition_spec (w h logoSize sizePercent : ℚ) :
    logoSizePx w sizePercent = w * (sizePercent / 100) ∧
    calculateLogoPosition w h .center logoSize = ((w - logoSize) / 2, (h - logoSize) / 2) ∧
    calculateLogoPosition w h .topLeft logoSize = (0.08 * w, 0.08 * w) ∧
    calculateLogoPosition w h .topRight logoSize = (w - logoSize - 0.08 * w, 0.08 * w) ∧
    calculateLogoPosition w h .bottomLeft logoSize = (0.08 * w, h - logoSize - 0.08 * w) ∧
    calculateLogoPosition w h .bottomRight logoSize =
        (w - logoSize - 0.08 * w, h - logoSize - 0.08 * w) ∧
    calculateLogoPosition w h .watermark logoSize =
        ((w - logoSize) / 2, h - logoSize - 2 * (0.08 * w)) ∧
    logoSizePx 400 15 = 60 ∧
    calculateLogoPosition 400 400 .topLeft 60 = (32, 32) ∧
    calculateLogoPosition 400 400 .center 60 = (170, 170) := by
  refine ⟨?_, ?_, ?_, ?_, ?_, ?_, ?_, ?_, ?_, ?_⟩ <;>
    simp only [calculateLogoPosition, logoSizePx, Prod.mk.injEq] <;> norm_num <;>
    and_intros <;> ring

/-- C5: `addBorderToCanvas` returns a buffer of dimensions exactly
`(w+2b) × (h+2b)` whose inner region `[b, b+w) × [b, b+h)` equals the
original buffer pixel for pixel, and whose every other pixel equals the
border color.  The function is total (pure) for every natural `b`. -/
theorem addBorderToCanvas_spec (c : Canvas) (b : ℕ) (col : RGBA) (fid : ℕ) :
    (addBorderToCanvas c b col fid).width = c.width + 2 * b ∧
    (addBorderToCanvas c b col fid).height = c.height + 2 * b ∧
    (∀ i j : ℕ, i < c.width → j < c.height →
      (addBorderToCanvas c b col fid).pixels (b + i) (b + j) = c.pixels i j) ∧
    (∀ i j : ℕ,
      ¬(b ≤ i ∧ i < b + c.width ∧ b ≤ j ∧ j < b + c.height) →
      (addBorderToCanvas c b col fid).pixels i j = col) := by
  refine ⟨by simp [addBorderToCanvas]; ring, by simp [addBorderToCanvas]; ring, ?_, ?_⟩
  · intro i j hi hj
    have hcond : b ≤ b + i ∧ b + i < b + c.width ∧ b ≤ b + j ∧ b + j < b + c.height := by omega
    simp only [addBorderToCanvas, if_pos hcond]
    congr 1 <;> omega
  · intro i j hcond
    simp only [addBorderToCanvas, if_neg hcond]

/-- C8: when the logo image fails to load (decode error or timeout: the
load oracle yields `none` for the logo's URI), `addLogoToCanvas` is a
no-op returning the given buffer unchanged. -/
theorem addLogoToCanvas_loadFailure (c : Canvas) (logo : LogoItem) (shape : LogoShape)
    (layout : LogoLayout) (size : ℚ) (bg : RGBA) (env : String → Option LogoImage)
    (henv : env logo.data = none) :
    addLogoToCanvas c logo shape layout size bg env = c := by
  unfold addLogoToCanvas
  rw [henv]

/-- Witness for C8 at a concrete input: an oracle on which every load fails. -/
theorem addLogoToCanvas_loadFailure_witness :
    addLogoToCanvas testCanvas ⟨"l1", "logo", "data:image/png;base64,x"⟩
      LogoShape.circle LogoLayout.center 15 ⟨255, 255, 255, 255⟩ (fun _ => none)
      = testCanvas :=
  addLogoToCanvas_loadFailure testCanvas ⟨"l1", "logo", "data:image/png;base64,x"⟩
    LogoShape.circle LogoLayout.center 15 ⟨255, 255, 255, 255⟩ (fun _ => none) rfl

/-- C9 (evidence): the module cell size estimate of a 36-pixel-wide canvas
is zero, and `applyDesignStyle` does not reject it before use: the zero
step is fed to the pixel loop, which never terminates (the model's `none`),
instead of failing fast. -/
theorem moduleSize_zero_not_rejected :
    moduleSizeOf smallCanvas.width = 0 ∧
    applyDesignStyle smallCanvas .dots ⟨0, 0, 0, 255⟩ ⟨255, 255, 255, 255⟩ 1 = none := by
  exact ⟨rfl, rfl⟩

/-- When every candidate load fails, the probe loop visits the whole list
and yields nothing. -/
theorem probeSources_all_fail {env : String → Option FaviconImage} :
    ∀ {l : List String}, (∀ s ∈ l, loadFaviconImage (env s) = none) →
      probeSources env l = (l, none) := by
  intro l
  induction l with
  | nil => intro _; rfl
  | cons hd tl ih =>
    intro hfail
    have hhd : loadFaviconImage (env hd) = none := hfail hd (List.mem_cons_self hd tl)
    have htl := ih (fun s hs => hfail s (List.mem_cons_of_mem hd hs))
    simp only [probeSources, hhd, htl]

/-- When the candidates before position `k` all fail and the candidate at
position `k` is accepted, the probe loop visits exactly the first `k + 1`
candidates, in order, and yields that acceptance. -/
theorem probeSources_first_success {env : String → Option FaviconImage} :
    ∀ {l : List String} {k : ℕ} {s : String} {n : NormalizedFavicon},
      (∀ s' ∈ l.take k, loadFaviconImage (env s') = none) →
      l.get? k = some s → loadFaviconImage (env s) = some n →
      probeSources env l = (l.take (k + 1), some n) := by
  intro l
  induction l with
  | nil => intro k s n _ hget; simp at hget
  | cons hd tl ih =>
    intro k s n hfail hget hacc
    cases k with
    | zero =>
      simp only [List.get?] at hget
      have hs : hd = s := by injection hget
      subst hs
      simp only [probeSources, hacc, List.take]
    | succ k0 =>
      have hhd : loadFaviconImage (env hd) = none := by
        refine hfail hd ?_
        simp [List.take]
      have htl := ih (fun s' hs' => hfail s' (by simp [List.take, hs'])) hget hacc
      simp only [probeSources, hhd, htl, List.take]

/-- C6: favicon resolution probes its candidates strictly sequentially in
the declared priority order — four third-party icon APIs, then the domain's
`apple-touch-icon.png`, `apple-touch-icon-precomposed.png`,
`favicon-32x32.png`, `favicon.ico` —, discards any loaded image whose width
or height is below 16px and continues, accepts the first candidate whose
image passes that bound (probing exactly the candidates up to and including
it), and normalizes the accepted image onto a 256×256 white canvas,
uniformly scaled to fit preserving aspect ratio and centered. -/
theorem fetchFavicon_resolution_spec (env : String → Option FaviconImage) (url : String) :
    (faviconSources (hostnameOf (normalizeUrl url)) (originOf (normalizeUrl url)) =
      ["https://www.google.com/s2/favicons?domain=" ++ hostnameOf (normalizeUrl url) ++ "&sz=256",
       "https://icons.duckduckgo.com/ip3/" ++ hostnameOf (normalizeUrl url) ++ ".ico",
       "https://logo.clearbit.com/" ++ hostnameOf (normalizeUrl url),
       "https://api.faviconkit.com/" ++ hostnameOf (normalizeUrl url) ++ "/256",
       originOf (normalizeUrl url) ++ "/apple-touch-icon.png",
       originOf (normalizeUrl url) ++ "/apple-touch-icon-precomposed.png",
       originOf (normalizeUrl url) ++ "/favicon-32x32.png",
       originOf (normalizeUrl url) ++ "/favicon.ico"]) ∧
    (∀ img : FaviconImage, img.width < 16 ∨ img.height < 16 →
      loadFaviconImage (some img) = none) ∧
    (∀ img : FaviconImage, 16 ≤ img.width → 16 ≤ img.height →
      ∃ nf, loadFaviconImage (some img) = some nf ∧
        nf.size = 256 ∧ nf.background = ⟨255, 255, 255, 255⟩ ∧
        nf.drawW = (img.width : ℚ) * min ((256 : ℚ) / img.width) ((256 : ℚ) / img.height) ∧
        nf.drawH = (img.height : ℚ) * min ((256 : ℚ) / img.width) ((256 : ℚ) / img.height) ∧
        nf.drawX = (256 - nf.drawW) / 2 ∧ nf.drawY = (256 - nf.drawH) / 2 ∧
        nf.drawW ≤ 256 ∧ nf.drawH ≤ 256 ∧
        nf.drawW * (img.height : ℚ) = nf.drawH * (img.width : ℚ)) ∧
    (∀ (k : ℕ) (s : String) (n : NormalizedFavicon),
      (∀ s' ∈ (faviconSources (hostnameOf (normalizeUrl url))
          (originOf (normalizeUrl url))).take k, loadFaviconImage (env s') = none) →
      (faviconSources (hostnameOf (normalizeUrl url))
          (originOf (normalizeUrl url))).get? k = some s →
      loadFaviconImage (env s) = some n →
      fetchFavicon env url = some n ∧
        fetchFaviconTrace env url = (faviconSources (hostnameOf (normalizeUrl url))
          (originOf (normalizeUrl url))).take (k + 1)) ∧
    ((∀ s ∈ faviconSources (hostnameOf (normalizeUrl url)) (originOf (normalizeUrl url)),
        loadFaviconImage (env s) = none) →
      fetchFavicon env url = none ∧
        fetchFaviconTrace env url =
          faviconSources (hostnameOf (normalizeUrl url)) (originOf (normalizeUrl url))) := by
  refine ⟨rfl, ?_, ?_, ?_, ?_⟩
  · intro img hsmall
    simp only [loadFaviconImage, if_pos hsmall]
  · intro img hw hh
    have hw0 : (0 : ℚ) < (img.width : ℚ) := by exact_mod_cast Nat.lt_of_lt_of_le (by norm_num) hw
    have hh0 : (0 : ℚ) < (img.height : ℚ) := by exact_mod_cast Nat.lt_of_lt_of_le (by norm_num) hh
    have hnotsmall : ¬(img.width < 16 ∨ img.height < 16) := by omega
    refine ⟨{ size := 256
              background := ⟨255, 255, 255, 255⟩
              drawX := (256 - (img.width : ℚ) *
                min ((256 : ℚ) / img.width) ((256 : ℚ) / img.height)) / 2
              drawY := (256 - (img.height : ℚ) *
                min ((256 : ℚ) / img.width) ((256 : ℚ) / img.height)) / 2
              drawW := (img.width : ℚ) * min ((256 : ℚ) / img.width) ((256 : ℚ) / img.height)
              drawH := (img.height : ℚ) *
                min ((256 : ℚ) / img.width) ((256 : ℚ) / img.height) },
      by simp only [loadFaviconImage, if_neg hnotsmall], rfl, rfl, rfl, rfl, rfl, rfl,
      ?_, ?_, by ring⟩
    · have hmin : min ((256 : ℚ) / img.width) ((256 : ℚ) / img.height) ≤ (256 : ℚ) / img.width :=
        min_le_left _ _
      calc (img.width : ℚ) * min ((256 : ℚ) / img.width) ((256 : ℚ) / img.height)
          ≤ (img.width : ℚ) * ((256 : ℚ) / img.width) := by
            exact mul_le_mul_of_nonneg_left hmin hw0.le
        _ = 256 := by field_simp
    · have hmin : min ((256 : ℚ) / img.width) ((256 : ℚ) / img.height) ≤ (256 : ℚ) / img.height :=
        min_le_right _ _
      calc (img.height : ℚ) * min ((256 : ℚ) / img.width) ((256 : ℚ) / img.height)
          ≤ (img.height : ℚ) * ((256 : ℚ) / img.height) := by
            exact mul_le_mul_of_nonneg_left hmin hh0.le
        _ = 256 := by field_simp
  · intro k s n hfail hget hacc
    have := probeSources_first_success hfail hget hacc
    constructor
    · simp only [fetchFavicon, this]
    · simp only [fetchFaviconTrace, this]
  · intro hfail
    have := probeSources_all_fail hfail
    constructor
    · simp only [fetchFavicon, this]
    · simp only [fetchFaviconTrace, this]

/-- C7: `fetchFavicon` never throws: it is a total function into an option.
A URL without a scheme is first auto-normalized by prepending `https://`,
and when every candidate load fails the result is `none` (an expected
absence, not an error). -/
theorem fetchFavicon_never_throws (env : String → Option FaviconImage) (url : String) :
    (fetchFavicon env url = none ∨ ∃ nf, fetchFavicon env url = some nf) ∧
    (¬(url.trim.startsWith ("http://") ∨ url.trim.startsWith ("https://")) →
      normalizeUrl url = "https://" ++ url.trim) ∧
    ((∀ s, loadFaviconImage (env s) = none) → fetchFavicon env url = none) := by
  refine ⟨?_, ?_, ?_⟩
  · cases h : fetchFavicon env url with
    | none => exact Or.inl rfl
    | some nf => exact Or.inr ⟨nf, rfl⟩
  · intro hns
    simp only [normalizeUrl, if_neg hns]
  · intro hfail
    have := @probeSources_all_fail env
      (faviconSources (hostnameOf (normalizeUrl url)) (originOf (normalizeUrl url)))
      (fun s _ => hfail s)
    simp only [fetchFavicon, this]

/-- A rounded rectangle expanded by `pad` on all sides (same corner radius)
covers every point the original covers. -/
theorem roundRect_covers_expand {x y w h r pad u v : ℚ} (hpad : 0 ≤ pad)
    (hc : (ShapeSpec.roundRect x y w h r).covers u v = true) :
    (ShapeSpec.roundRect (x - pad) (y - pad) (w + pad * 2) (h + pad * 2) r).covers u v
      = true := by
  simp only [ShapeSpec.covers, decide_eq_true_eq] at hc ⊢
  obtain ⟨b1, b2, b3, b4, c1, c2, c3, c4⟩ := hc
  refine ⟨by linarith, by linarith, by linarith, by linarith, ?_, ?_, ?_, ?_⟩
  · rintro ⟨h1, h2⟩
    have hold := c1 ⟨by linarith, by linarith⟩
    nlinarith [mul_nonneg hpad (by linarith : (0 : ℚ) ≤ x + r - u - pad),
               mul_nonneg hpad (by linarith : (0 : ℚ) ≤ y + r - v - pad)]
  · rintro ⟨h1, h2⟩
    have hold := c2 ⟨by linarith, by linarith⟩
    nlinarith [mul_nonneg hpad (by linarith : (0 : ℚ) ≤ u - (x + w - r) - pad),
               mul_nonneg hpad (by linarith : (0 : ℚ) ≤ y + r - v - pad)]
  · rintro ⟨h1, h2⟩
    have hold := c3 ⟨by linarith, by linarith⟩
    nlinarith [mul_nonneg hpad (by linarith : (0 : ℚ) ≤ x + r - u - pad),
               mul_nonneg hpad (by linarith : (0 : ℚ) ≤ v - (y + h - r) - pad)]
  · rintro ⟨h1, h2⟩
    have hold := c4 ⟨by linarith, by linarith⟩
    nlinarith [mul_nonneg hpad (by linarith : (0 : ℚ) ≤ u - (x + w - r) - pad),
               mul_nonneg hpad (by linarith : (0 : ℚ) ≤ v - (y + h - r) - pad)]

/-- The logo's clip region is contained in the background pad region drawn
under it, for every shape kind. -/
theorem clipShape_subset_padShape {shape : LogoShape} {px py L padding u v : ℚ}
    (hL : 0 ≤ L) (hpad : 0 ≤ padding)
    (hc : (clipShape shape px py L).covers u v = true) :
    (padShape shape px py L padding).covers u v = true := by
  cases shape with
  | square =>
    simp only [clipShape, padShape, ShapeSpec.covers, decide_eq_true_eq] at hc ⊢
    obtain ⟨h1, h2, h3, h4⟩ := hc
    exact ⟨by linarith, by linarith, by linarith, by linarith⟩
  | circle =>
    simp only [clipShape, padShape, ShapeSpec.covers, decide_eq_true_eq] at hc ⊢
    nlinarith [mul_nonneg hpad hpad, mul_nonneg hpad hL]
  | rounded =>
    simp only [clipShape, padShape] at hc ⊢
    exact roundRect_covers_expand hpad hc

/-- C10: when the logo image loads, `addLogoToCanvas` mutates the canvas it
was given in place — same allocation identity and dimensions — and leaves
every pixel outside the drawn background-pad region (extent
`logoSize + 2·0.15·logoSize` around the anchor) unchanged; by contrast,
`applyDesignStyle` on a non-square style and `addBorderToCanvas` return a
freshly allocated canvas (the new allocation identity, distinct from the
input's) and leave the input untouched. -/
theorem compositor_frame_effects (c : Canvas) (logo : LogoItem) (shape : LogoShape)
    (layout : LogoLayout) (size : ℚ) (bg : RGBA) (env : String → Option LogoImage)
    (img : LogoImage) (henv : env logo.data = some img) (hsize : 0 ≤ size) :
    ((addLogoToCanvas c logo shape layout size bg env).id = c.id ∧
     (addLogoToCanvas c logo shape layout size bg env).width = c.width ∧
     (addLogoToCanvas c logo shape layout size bg env).height = c.height ∧
     (∀ i j : ℕ,
        (logoPadRegion c shape layout size).covers ((i : ℚ) + 1 / 2) ((j : ℚ) + 1 / 2)
          = false →
        (addLogoToCanvas c logo shape layout size bg env).pixels i j = c.pixels i j)) ∧
    (∀ (style : QRDesignStyle) (fg : RGBA) (fid : ℕ),
      style ≠ QRDesignStyle.square → moduleSizeOf c.width ≠ 0 → fid ≠ c.id →
      ∃ o, applyDesignStyle c style fg bg fid = some o ∧ o.id = fid ∧ o.id ≠ c.id) ∧
    (∀ (b : ℕ) (col : RGBA) (fid : ℕ), fid ≠ c.id →
      (addBorderToCanvas c b col fid).id = fid ∧
      (addBorderToCanvas c b col fid).id ≠ c.id) := by
  have hL : (0 : ℚ) ≤ logoSizePx (c.width : ℚ) size := by
    unfold logoSizePx
    have : (0 : ℚ) ≤ (c.width : ℚ) := Nat.cast_nonneg _
    positivity
  have hpad : (0 : ℚ) ≤ logoSizePx (c.width : ℚ) size * (15 / 100) := by positivity
  refine ⟨?_, ?_, ?_⟩
  · unfold addLogoToCanvas
    rw [henv]
    refine ⟨rfl, rfl, rfl, ?_⟩
    intro i j hout
    unfold logoPadRegion at hout
    have hclip : (clipShape shape
        (calculateLogoPosition (c.width : ℚ) (c.height : ℚ) layout
          (logoSizePx (c.width : ℚ) size)).1
        (calculateLogoPosition (c.width : ℚ) (c.height : ℚ) layout
          (logoSizePx (c.width : ℚ) size)).2
        (logoSizePx (c.width : ℚ) size)).covers ((i : ℚ) + 1 / 2) ((j : ℚ) + 1 / 2)
        = false := by
      cases hcl : (clipShape shape
          (calculateLogoPosition (c.width : ℚ) (c.height : ℚ) layout
            (logoSizePx (c.width : ℚ) size)).1
          (calculateLogoPosition (c.width : ℚ) (c.height : ℚ) layout
            (logoSizePx (c.width : ℚ) size)).2
          (logoSizePx (c.width : ℚ) size)).covers ((i : ℚ) + 1 / 2) ((j : ℚ) + 1 / 2) with
      | false => rfl
      | true =>
        have hin := clipShape_subset_padShape hL hpad hcl
        rw [hout] at hin
        exact absurd hin (by simp)
    simp only [hclip, hout, Bool.false_eq_true, if_false]
  · intro style fg fid hst hm0 hfid
    refine ⟨{ width := c.width
              height := c.height
              id := fid
              pixels := fun i j =>
                if (darkCells c (moduleSizeOf c.width)).any (fun cell =>
                    (drawStyledModule (cell.1 : ℚ) (cell.2 : ℚ)
                      ((moduleSizeOf c.width : ℕ) : ℚ) style).covers
                      ((i : ℚ) + 1 / 2) ((j : ℚ) + 1 / 2))
                then fg else bg }, ?_, rfl, hfid⟩
    simp only [applyDesignStyle, hst, if_false, hm0, ite_false]
  · intro b col fid hfid
    exact ⟨rfl, hfid⟩

/-- Witness for C10 at a concrete input: the 400×400 test canvas, a logo
whose image loads (`constLoadEnv`), shape `rounded`, layout `center`, size
15%. -/
theorem compositor_frame_effects_witness :
    (addLogoToCanvas testCanvas ⟨"l1", "logo", "data:image/png;base64,x"⟩
      LogoShape.rounded LogoLayout.center 15 ⟨255, 255, 255, 255⟩ constLoadEnv).id
        = testCanvas.id ∧
    (addBorderToCanvas testCanvas 3 ⟨0, 0, 0, 255⟩ 7).id = 7 := by
  obtain ⟨⟨hid, -, -, -⟩, -, hborder⟩ :=
    compositor_frame_effects testCanvas ⟨"l1", "logo", "data:image/png;base64,x"⟩
      LogoShape.rounded LogoLayout.center 15 ⟨255, 255, 255, 255⟩ constLoadEnv constImage
      rfl (by norm_num)
  exact ⟨hid, (hborder 3 ⟨0, 0, 0, 255⟩ 7 (by decide)).1⟩

end QRStudio
